import Mathlib

/-!
Verification of the centry-core/shared secret-management subsystem.

This development shallowly embeds the secret-engine code of the repository
(src/tools/secret_engines/, src/tools/vault_tools.py, src/tools/secret_field.py)
into Lean and proves or refutes the frozen specification claims about it.

Python dicts are modelled as association lists that keep insertion order
(the first occurrence of a key is the binding; assignment replaces in place or
appends), mirroring CPython dict semantics for the operations the code uses.

Recursive scans are written with an explicit fuel argument (structural
recursion on a natural number bound) so that every definition is computable
by kernel reduction; fuel-irrelevance lemmas show the bound does not matter
once it covers the input.
-/

namespace Shared

/-- Association-list lookup, mirroring Python dict lookup d.get(k). -/
def aget {β : Type} : List (String × β) → String → Option β
  | [], _ => none
  | (k0, v0) :: d, k => if k0 = k then some v0 else aget d k

/-- Association-list assignment, mirroring Python d[k] = v: replaces the
binding in place if the key is present, appends otherwise. -/
def aset {β : Type} : List (String × β) → String → β → List (String × β)
  | [], k, v => [(k, v)]
  | (k0, v0) :: d, k, v => if k0 = k then (k, v) :: d else (k0, v0) :: aset d k v

/-- A Python dict from secret names to secret values. -/
abbrev Dict := List (String × String)

/-- Python d.update(o): assign every binding of o into d, in order. -/
def dupdate (d o : Dict) : Dict :=
  o.foldl (fun acc p => aset acc p.1 p.2) d

/-- Keys of an association list, in order. -/
def akeys {β : Type} (d : List (String × β)) : List String := d.map Prod.fst

/-- Python dicts have unique keys; association lists modelling them satisfy this. -/
def nodupKeys {β : Type} (d : List (String × β)) : Prop := (akeys d).Nodup

instance {β : Type} (d : List (String × β)) : Decidable (nodupKeys d) :=
  inferInstanceAs (Decidable (akeys d).Nodup)

theorem aget_aset {β : Type} (d : List (String × β)) (k : String) (v : β) (k' : String) :
    aget (aset d k v) k' = if k = k' then some v else aget d k' := by
  induction d with
  | nil => simp [aset, aget]
  | cons p d ih =>
    obtain ⟨k0, v0⟩ := p
    by_cases h0 : k0 = k <;> by_cases h1 : k0 = k' <;> by_cases h2 : k = k' <;>
      simp_all [aset, aget]

theorem aget_eq_none_of_not_mem {β : Type} (d : List (String × β)) (k : String)
    (h : k ∉ akeys d) : aget d k = none := by
  induction d with
  | nil => rfl
  | cons p d ih =>
    obtain ⟨k0, v0⟩ := p
    simp only [akeys, List.map_cons, List.mem_cons, not_or] at h
    simp only [aget, if_neg (fun hh : k0 = k => h.1 hh.symm)]
    exact ih h.2

theorem dupdate_nil (d : Dict) : dupdate d [] = d := rfl

theorem dupdate_cons (d : Dict) (k : String) (v : String) (o : Dict) :
    dupdate d ((k, v) :: o) = dupdate (aset d k v) o := rfl

/-- Lookup in a Python d.update(o) result: bindings of o win. -/
theorem aget_dupdate (o : Dict) (h : nodupKeys o) :
    ∀ (d : Dict) (k : String),
      aget (dupdate d o) k = if (aget o k).isSome then aget o k else aget d k := by
  induction o with
  | nil =>
    intro d k
    simp [dupdate_nil, aget]
  | cons p o ih =>
    obtain ⟨k0, v0⟩ := p
    have hk0 : k0 ∉ akeys o := by
      simp only [nodupKeys, akeys, List.map_cons, List.nodup_cons] at h
      exact h.1
    have hnd : nodupKeys o := by
      simp only [nodupKeys, akeys, List.map_cons, List.nodup_cons] at h
      exact h.2
    intro d k
    rw [dupdate_cons, ih hnd]
    by_cases hk : k0 = k
    · subst hk
      rw [aget_eq_none_of_not_mem o k0 hk0]
      simp [aget, aget_aset]
    · simp only [aget, if_neg hk, aget_aset, if_neg hk]

end Shared

namespace Shared

/-! ## The substitution token scanner

EngineBase._secret_pattern is the regex r'\x7b\x7bsecret\.([A-Za-z0-9_]+)\x7d\x7d'.
tryTok attempts to match this pattern at the head of a character list, exactly
as the regex engine does at each position during re.sub / re.findall: the
literal opener, then a maximal nonempty run of name characters, then the two
closing braces (name characters never include a brace, so the greedy run is
exact). -/

/-- Character class [A-Za-z0-9_] of EngineBase's token pattern. -/
def isNameChar (c : Char) : Bool := c.isAlphanum || c == '_'

/-- The literal opener of a token: the characters of "\x7b\x7bsecret.". -/
def tokOpen : List Char := ['{', '{', 's', 'e', 'c', 'r', 'e', 't', '.']

/-- Match a literal character sequence at the head of the input. -/
def dropLit : List Char → List Char → Option (List Char)
  | [], cs => some cs
  | _ :: _, [] => none
  | l :: ls, c :: cs => if c = l then dropLit ls cs else none

/-- Attempt to match one secret token at the head of the input, returning the
name and the remaining characters. -/
def tryTok (cs : List Char) : Option (String × List Char) :=
  match dropLit tokOpen cs with
  | none => none
  | some rest =>
    if (rest.takeWhile isNameChar).isEmpty then none
    else
      match rest.dropWhile isNameChar with
      | c1 :: c2 :: rest3 =>
        if c1 = '}' ∧ c2 = '}' then some (String.mk (rest.takeWhile isNameChar), rest3)
        else none
      | _ => none

theorem dropLit_sound : ∀ (ls cs rest : List Char), dropLit ls cs = some rest → cs = ls ++ rest := by
  intro ls
  induction ls with
  | nil =>
    intro cs rest h
    simp only [dropLit, Option.some.injEq] at h
    simp [h]
  | cons l ls ih =>
    intro cs rest h
    cases cs with
    | nil => exact absurd h (by simp [dropLit])
    | cons c cs =>
      simp only [dropLit] at h
      by_cases hc : c = l
      · rw [if_pos hc] at h
        subst hc
        simpa using ih cs rest h
      · rw [if_neg hc] at h
        exact absurd h (by simp)

theorem dropLit_self : ∀ (ls cs : List Char), dropLit ls (ls ++ cs) = some cs := by
  intro ls
  induction ls with
  | nil => intro cs; rfl
  | cons l ls ih => intro cs; simp [dropLit, ih]

theorem takeWhile_append_all {q : Char → Bool} (l r : List Char)
    (h : ∀ c ∈ l, q c = true) : (l ++ r).takeWhile q = l ++ r.takeWhile q := by
  induction l with
  | nil => simp
  | cons c l ih =>
    have hc : q c = true := h c (by simp)
    simp only [List.cons_append, List.takeWhile_cons, hc, if_true]
    rw [ih (fun x hx => h x (by simp [hx]))]

theorem dropWhile_append_all {q : Char → Bool} (l r : List Char)
    (h : ∀ c ∈ l, q c = true) : (l ++ r).dropWhile q = r.dropWhile q := by
  induction l with
  | nil => simp
  | cons c l ih =>
    have hc : q c = true := h c (by simp)
    simp only [List.cons_append, List.dropWhile_cons, hc, if_true]
    exact ih (fun x hx => h x (by simp [hx]))

/-- Characterization of a successful token match. -/
theorem tryTok_sound (cs : List Char) (n : String) (rest : List Char)
    (h : tryTok cs = some (n, rest)) :
    cs = tokOpen ++ n.toList ++ '}' :: '}' :: rest ∧
      n.toList ≠ [] ∧ ∀ c ∈ n.toList, isNameChar c = true := by
  unfold tryTok at h
  cases hd : dropLit tokOpen cs with
  | none => rw [hd] at h; cases h
  | some body =>
    rw [hd] at h
    simp only at h
    split at h
    · cases h
    · rename_i hne
      split at h
      · rename_i c1 c2 rest3 heq
        split at h
        · rename_i hbr
          obtain ⟨hc1, hc2⟩ := hbr
          subst hc1
          subst hc2
          simp only [Option.some.injEq, Prod.mk.injEq] at h
          obtain ⟨hn, hr⟩ := h
          subst hn
          subst hr
          have hnl : (String.mk (body.takeWhile isNameChar)).toList
              = body.takeWhile isNameChar := rfl
          have hbody : body = body.takeWhile isNameChar ++ '}' :: '}' :: rest3 := by
            conv_lhs => rw [← List.takeWhile_append_dropWhile (p := isNameChar) (l := body)]
            rw [heq]
          refine ⟨?_, ?_, ?_⟩
          · rw [hnl, dropLit_sound _ _ _ hd]
            conv_lhs => rw [hbody]
            simp
          · rw [hnl]
            intro hempty
            rw [← List.isEmpty_iff] at hempty
            exact hne hempty
          · rw [hnl]
            intro c hc
            exact List.mem_takeWhile_imp hc
        · cases h
      · cases h

theorem tryTok_consumes (cs : List Char) (n : String) (rest : List Char)
    (h : tryTok cs = some (n, rest)) : rest.length < cs.length := by
  obtain ⟨hcs, -, -⟩ := tryTok_sound cs n rest h
  rw [hcs]
  simp [tokOpen]
  omega

/-- Under the shape hypotheses, the scanner matches exactly the token. -/
theorem tryTok_at_token (n : String) (rest : List Char)
    (hne : n.toList ≠ []) (hall : ∀ c ∈ n.toList, isNameChar c = true) :
    tryTok (tokOpen ++ n.toList ++ '}' :: '}' :: rest) = some (n, rest) := by
  have hnc : isNameChar '}' = false := by decide
  unfold tryTok
  rw [List.append_assoc, dropLit_self]
  have h1 : List.takeWhile isNameChar (n.toList ++ '}' :: '}' :: rest) = n.toList := by
    rw [takeWhile_append_all _ _ hall]
    simp [List.takeWhile_cons, hnc]
  have h2 : List.dropWhile isNameChar (n.toList ++ '}' :: '}' :: rest)
      = '}' :: '}' :: rest := by
    rw [dropWhile_append_all _ _ hall]
    simp [List.dropWhile_cons, hnc]
  simp only [h1, h2]
  rw [if_neg (by simpa [List.isEmpty_iff] using hne)]
  have hmk : String.mk n.toList = n := by cases n; rfl
  simp [hmk]

theorem tryTok_not_open (c : Char) (cs : List Char) (h : ¬ c = '{') :
    tryTok (c :: cs) = none := by
  simp [tryTok, tokOpen, dropLit, h]

/-- Python secrets.get(secret_key, match.group(0)) inside EngineBase._replacer:
the looked-up value, or the literal token text when the name is unknown. -/
def replacer (secrets : Dict) (n : String) : String :=
  match aget secrets n with
  | some v => v
  | none => "\x7b\x7bsecret." ++ n ++ "\x7d\x7d"

/-- Fueled left-to-right scan of re.sub(_secret_pattern, replacer, value). -/
def subCharsF (secrets : Dict) : Nat → List Char → List Char
  | 0, cs => cs
  | _ + 1, [] => []
  | fuel + 1, c :: cs =>
    match tryTok (c :: cs) with
    | some (n, rest) => (replacer secrets n).toList ++ subCharsF secrets fuel rest
    | none => c :: subCharsF secrets fuel cs

/-- Fueled left-to-right scan of re.findall(_secret_pattern, value): the token
names in order of occurrence. -/
def findToksF : Nat → List Char → List String
  | 0, _ => []
  | _ + 1, [] => []
  | fuel + 1, c :: cs =>
    match tryTok (c :: cs) with
    | some (n, rest) => n :: findToksF fuel rest
    | none => findToksF fuel cs

theorem subCharsF_nil (m : Dict) (fuel : Nat) : subCharsF m fuel [] = [] := by
  cases fuel <;> rfl

theorem findToksF_nil (fuel : Nat) : findToksF fuel [] = [] := by
  cases fuel <;> rfl

theorem subCharsF_fuel (m : Dict) :
    ∀ (f1 : Nat) (cs : List Char) (f2 : Nat), cs.length ≤ f1 → cs.length ≤ f2 →
      subCharsF m f1 cs = subCharsF m f2 cs := by
  intro f1
  induction f1 with
  | zero =>
    intro cs f2 h1 _
    have : cs = [] := List.length_eq_zero.mp (Nat.le_zero.mp h1)
    subst this
    rw [subCharsF_nil, subCharsF_nil]
  | succ f ih =>
    intro cs f2 h1 h2
    cases cs with
    | nil => rw [subCharsF_nil, subCharsF_nil]
    | cons c cs =>
      cases f2 with
      | zero => simp at h2
      | succ f2 =>
        show (match tryTok (c :: cs) with
          | some (n, rest) => (replacer m n).toList ++ subCharsF m f rest
          | none => c :: subCharsF m f cs) = (match tryTok (c :: cs) with
          | some (n, rest) => (replacer m n).toList ++ subCharsF m f2 rest
          | none => c :: subCharsF m f2 cs)
        cases htok : tryTok (c :: cs) with
        | some p =>
          obtain ⟨n, rest⟩ := p
          have hlt := tryTok_consumes _ _ _ htok
          simp only [List.length_cons] at h1 h2 hlt
          simp only
          rw [ih rest f2 (by omega) (by omega)]
        | none =>
          simp only [List.length_cons] at h1 h2
          simp only
          rw [ih cs f2 (by omega) (by omega)]

theorem findToksF_fuel :
    ∀ (f1 : Nat) (cs : List Char) (f2 : Nat), cs.length ≤ f1 → cs.length ≤ f2 →
      findToksF f1 cs = findToksF f2 cs := by
  intro f1
  induction f1 with
  | zero =>
    intro cs f2 h1 _
    have : cs = [] := List.length_eq_zero.mp (Nat.le_zero.mp h1)
    subst this
    rw [findToksF_nil, findToksF_nil]
  | succ f ih =>
    intro cs f2 h1 h2
    cases cs with
    | nil => rw [findToksF_nil, findToksF_nil]
    | cons c cs =>
      cases f2 with
      | zero => simp at h2
      | succ f2 =>
        show (match tryTok (c :: cs) with
          | some (n, rest) => n :: findToksF f rest
          | none => findToksF f cs) = (match tryTok (c :: cs) with
          | some (n, rest) => n :: findToksF f2 rest
          | none => findToksF f2 cs)
        cases htok : tryTok (c :: cs) with
        | some p =>
          obtain ⟨n, rest⟩ := p
          have hlt := tryTok_consumes _ _ _ htok
          simp only [List.length_cons] at h1 h2 hlt
          simp only
          rw [ih rest f2 (by omega) (by omega)]
        | none =>
          simp only [List.length_cons] at h1 h2
          simp only
          rw [ih cs f2 (by omega) (by omega)]

/-- The re.sub scan with the canonical fuel. -/
def subRun (m : Dict) (cs : List Char) : List Char := subCharsF m cs.length cs

/-- The re.findall scan with the canonical fuel. -/
def findRun (cs : List Char) : List String := findToksF cs.length cs

theorem subRun_tok (m : Dict) (c : Char) (cs : List Char) (n : String) (rest : List Char)
    (h : tryTok (c :: cs) = some (n, rest)) :
    subRun m (c :: cs) = (replacer m n).toList ++ subRun m rest := by
  have hlt := tryTok_consumes _ _ _ h
  show (match tryTok (c :: cs) with
    | some (n, rest) => (replacer m n).toList ++ subCharsF m cs.length rest
    | none => c :: subCharsF m cs.length cs) = _
  rw [h]
  dsimp only
  simp only [List.length_cons] at hlt
  rw [subCharsF_fuel m cs.length rest rest.length (by omega) (by omega)]
  rfl

theorem subRun_skip (m : Dict) (c : Char) (cs : List Char)
    (h : tryTok (c :: cs) = none) :
    subRun m (c :: cs) = c :: subRun m cs := by
  show (match tryTok (c :: cs) with
    | some (n, rest) => (replacer m n).toList ++ subCharsF m cs.length rest
    | none => c :: subCharsF m cs.length cs) = _
  rw [h]
  dsimp only
  rfl

theorem findRun_tok (c : Char) (cs : List Char) (n : String) (rest : List Char)
    (h : tryTok (c :: cs) = some (n, rest)) :
    findRun (c :: cs) = n :: findRun rest := by
  have hlt := tryTok_consumes _ _ _ h
  show (match tryTok (c :: cs) with
    | some (n, rest) => n :: findToksF cs.length rest
    | none => findToksF cs.length cs) = _
  rw [h]
  dsimp only
  simp only [List.length_cons] at hlt
  rw [findToksF_fuel cs.length rest rest.length (by omega) (by omega)]
  rfl

theorem findRun_skip (c : Char) (cs : List Char)
    (h : tryTok (c :: cs) = none) :
    findRun (c :: cs) = findRun cs := by
  show (match tryTok (c :: cs) with
    | some (n, rest) => n :: findToksF cs.length rest
    | none => findToksF cs.length cs) = _
  rw [h]
  dsimp only
  rfl

/-- EngineBase.__unsecret_string substitution step: re.sub of the token
pattern over the value (EngineBase lines 189-190). -/
def secretSub (secrets : Dict) (value : String) : String :=
  String.mk (subRun secrets value.toList)

end Shared

namespace Shared

/-- The literal token text for a name, as EngineBase._replacer reproduces it
for an unknown name (match.group(0)). -/
def tokStr (n : String) : String := "\x7b\x7bsecret." ++ n ++ "\x7d\x7d"

theorem mk_toList (s : String) : String.mk s.toList = s := by
  cases s
  rfl

theorem toList_append (s t : String) : (s ++ t).toList = s.toList ++ t.toList := rfl

theorem tokStr_toList (n : String) :
    (tokStr n).toList = tokOpen ++ n.toList ++ ['}', '}'] := by
  show ("\x7b\x7bsecret." ++ n ++ "\x7d\x7d").toList = _
  rw [toList_append, toList_append]
  rfl

/-- A name accepted by the token pattern: nonempty, all in [A-Za-z0-9_]. -/
def validName (n : String) : Prop :=
  n.toList ≠ [] ∧ ∀ c ∈ n.toList, isNameChar c = true

theorem tryTok_nil : tryTok [] = none := rfl

theorem subRun_match (m : Dict) (cs : List Char) (n : String) (rest : List Char)
    (h : tryTok cs = some (n, rest)) :
    subRun m cs = (replacer m n).toList ++ subRun m rest := by
  cases cs with
  | nil => rw [tryTok_nil] at h; cases h
  | cons c cs => exact subRun_tok m c cs n rest h

theorem findRun_match (cs : List Char) (n : String) (rest : List Char)
    (h : tryTok cs = some (n, rest)) :
    findRun cs = n :: findRun rest := by
  cases cs with
  | nil => rw [tryTok_nil] at h; cases h
  | cons c cs => exact findRun_tok c cs n rest h

theorem subRun_nil (m : Dict) : subRun m [] = [] := rfl

theorem findRun_nil : findRun [] = [] := rfl

theorem tryTok_token_list (n : String) (rest : List Char) (hn : validName n) :
    tryTok ((tokStr n).toList ++ rest) = some (n, rest) := by
  have : (tokStr n).toList ++ rest = tokOpen ++ n.toList ++ '}' :: '}' :: rest := by
    rw [tokStr_toList]
    simp
  rw [this]
  exact tryTok_at_token n rest hn.1 hn.2

/-- Scanning a region with no opening brace copies it verbatim. -/
theorem subRun_no_open (m : Dict) (p : List Char) (rest : List Char)
    (hp : ∀ c ∈ p, ¬ c = '{') :
    subRun m (p ++ rest) = p ++ subRun m rest := by
  induction p with
  | nil => simp
  | cons c p ih =>
    have hc : ¬ c = '{' := hp c (by simp)
    rw [List.cons_append, subRun_skip m c (p ++ rest) (tryTok_not_open c _ hc)]
    rw [ih (fun x hx => hp x (by simp [hx]))]
    rfl

/-- When every name found in the input is unknown, re.sub reproduces the
input verbatim (EngineBase._replacer falls back to match.group(0)). -/
theorem subRun_id (m : Dict) :
    ∀ (N : Nat) (cs : List Char), cs.length ≤ N →
      (∀ n ∈ findRun cs, aget m n = none) → subRun m cs = cs := by
  intro N
  induction N with
  | zero =>
    intro cs h1 _
    have : cs = [] := List.length_eq_zero.mp (Nat.le_zero.mp h1)
    subst this
    exact subRun_nil m
  | succ N ih =>
    intro cs h1 hunk
    cases htok : tryTok cs with
    | some p =>
      obtain ⟨n, rest⟩ := p
      have hlt := tryTok_consumes _ _ _ htok
      obtain ⟨hsh, hne, hall⟩ := tryTok_sound _ _ _ htok
      have hfind := findRun_match cs n rest htok
      have hn : aget m n = none := hunk n (by rw [hfind]; simp)
      have hrest : ∀ t ∈ findRun rest, aget m t = none := by
        intro t ht
        exact hunk t (by rw [hfind]; simp [ht])
      rw [subRun_match m cs n rest htok, ih rest (by omega) hrest]
      rw [hsh]
      show (replacer m n).toList ++ _ = _
      rw [replacer, hn]
      show (tokStr n).toList ++ _ = _
      rw [tokStr_toList]
      simp
    | none =>
      cases cs with
      | nil => exact subRun_nil m
      | cons c cs =>
        have hfind := findRun_skip c cs htok
        rw [subRun_skip m c cs htok]
        have : ∀ t ∈ findRun cs, aget m t = none := by
          intro t ht
          exact hunk t (by rw [hfind]; exact ht)
        simp only [List.length_cons] at h1
        rw [ih cs (by omega) this]

theorem secretSub_whole_token (m : Dict) (n v : String)
    (hn : validName n) (hv : aget m n = some v) :
    secretSub m (tokStr n) = v := by
  unfold secretSub
  have h0 : (tokStr n).toList = (tokStr n).toList ++ [] := by simp
  rw [h0, subRun_match m _ n [] (tryTok_token_list n [] hn), subRun_nil]
  rw [replacer, hv]
  simp [mk_toList]

theorem secretSub_id (m : Dict) (s : String)
    (h : ∀ n ∈ findRun s.toList, aget m n = none) :
    secretSub m s = s := by
  unfold secretSub
  rw [subRun_id m s.toList.length s.toList (le_refl _) h, mk_toList]

theorem secretSub_embedded (m : Dict) (p n v : String)
    (hp : ∀ c ∈ p.toList, ¬ c = '{') (hn : validName n) (hv : aget m n = some v) :
    secretSub m (p ++ tokStr n) = p ++ v := by
  unfold secretSub
  rw [toList_append, subRun_no_open m _ _ hp]
  have h0 : (tokStr n).toList = (tokStr n).toList ++ [] := by simp
  rw [h0, subRun_match m _ n [] (tryTok_token_list n [] hn), subRun_nil]
  rw [replacer, hv]
  simp
  rfl

end Shared

namespace Shared

/-! ## Used-secret tracking (EngineBase.__unsecret_string, lines 183-190)

Python: for every name produced by re.findall over the value, look the name up
in the secrets dict; when the result is truthy (found and non-empty), add the
value to the used_secrets set. -/

/-- Python set.add on a set modelled as a duplicate-free list. -/
def sinsert (s : List String) (v : String) : List String :=
  if v ∈ s then s else s ++ [v]

/-- One tracking step for one found name: secrets.get(i) then a truthiness
test before used_secrets.add(secret_value). -/
def trackStep (secrets : Dict) (acc : List String) (n : String) : List String :=
  match aget secrets n with
  | some v => if v = "" then acc else sinsert acc v
  | none => acc

/-- The tracking loop over all names found in the value. -/
def trackUsed (secrets : Dict) (value : String) (used : List String) : List String :=
  (findRun value.toList).foldl (trackStep secrets) used

/-- The tracking-relevant state of an EngineBase facade. -/
structure TrackState where
  track_used_secrets : Bool
  used_secrets : List String
deriving DecidableEq

/-- EngineBase.__unsecret_string: track used secrets when enabled, then
substitute with re.sub. -/
def unsecretString (st : TrackState) (secrets : Dict) (value : String) :
    TrackState × String :=
  let st1 := if st.track_used_secrets
    then { st with used_secrets := trackUsed secrets value st.used_secrets }
    else st
  (st1, secretSub secrets value)

theorem mem_sinsert_self (s : List String) (v : String) : v ∈ sinsert s v := by
  unfold sinsert
  by_cases h : v ∈ s
  · rwa [if_pos h]
  · rw [if_neg h]
    simp

theorem mem_sinsert_of_mem (s : List String) (v w : String) (h : w ∈ s) :
    w ∈ sinsert s v := by
  unfold sinsert
  by_cases hv : v ∈ s
  · rwa [if_pos hv]
  · rw [if_neg hv]
    simp [h]

theorem mem_trackStep_of_mem (secrets : Dict) (acc : List String) (n w : String)
    (h : w ∈ acc) : w ∈ trackStep secrets acc n := by
  unfold trackStep
  cases aget secrets n with
  | none => exact h
  | some v =>
    by_cases hv : v = ""
    · simp [hv, h]
    · simp only [if_neg hv]
      exact mem_sinsert_of_mem acc v w h

theorem mem_trackStep_hit (secrets : Dict) (acc : List String) (n v : String)
    (hv : aget secrets n = some v) (hne : ¬ v = "") : v ∈ trackStep secrets acc n := by
  unfold trackStep
  rw [hv]
  dsimp only
  rw [if_neg hne]
  exact mem_sinsert_self acc v

theorem mem_foldl_trackStep (secrets : Dict) (v : String) :
    ∀ (l : List String) (acc : List String),
      ((∃ n ∈ l, aget secrets n = some v ∧ ¬ v = "") ∨ v ∈ acc) →
      v ∈ l.foldl (trackStep secrets) acc := by
  intro l
  induction l with
  | nil =>
    intro acc h
    rcases h with ⟨n, hn, -⟩ | h
    · simp at hn
    · exact h
  | cons n0 l ih =>
    intro acc h
    rw [List.foldl_cons]
    rcases h with ⟨n, hn, hv, hne⟩ | h
    · rcases List.mem_cons.mp hn with rfl | hmem
      · exact ih _ (Or.inr (mem_trackStep_hit secrets acc n v hv hne))
      · exact ih _ (Or.inl ⟨n, hmem, hv, hne⟩)
    · exact ih _ (Or.inr (mem_trackStep_of_mem secrets acc n0 v h))

end Shared

namespace Shared

/-! ## EngineBase facade state (src/tools/secret_engines/__init__.py)

The facade keeps a persisted blob with buckets "secrets" and "hidden_secrets"
(accessed through _read/_write) and a three-entry cache. The Python cache
check is truthiness of a dict, i.e. emptiness. get_* return defensive copies
(value semantics here); get_all_secrets copies the shared cache before
updating (EngineBase line 165). -/

structure EngineState where
  stored_secrets : Dict
  stored_hidden : Dict
  cache_secrets : Dict
  cache_hidden : Dict
  cache_shared : Dict
deriving DecidableEq

/-- A freshly constructed facade over a persisted blob: caches empty. -/
def EngineState.fresh (vis hid : Dict) : EngineState := ⟨vis, hid, [], [], []⟩

/-- EngineBase.get_secrets: read-through cache over blob bucket "secrets". -/
def EngineState.get_secrets (st : EngineState) : EngineState × Dict :=
  if st.cache_secrets.isEmpty then
    ({ st with cache_secrets := st.stored_secrets }, st.stored_secrets)
  else (st, st.cache_secrets)

/-- EngineBase.get_hidden_secrets. -/
def EngineState.get_hidden_secrets (st : EngineState) : EngineState × Dict :=
  if st.cache_hidden.isEmpty then
    ({ st with cache_hidden := st.stored_hidden }, st.stored_hidden)
  else (st, st.cache_hidden)

/-- EngineBase.set_secrets: read-modify-write of the blob plus cache refresh. -/
def EngineState.set_secrets (st : EngineState) (secrets : Dict) : EngineState :=
  { st with stored_secrets := secrets, cache_secrets := secrets }

/-- EngineBase.set_hidden_secrets. -/
def EngineState.set_hidden_secrets (st : EngineState) (secrets : Dict) : EngineState :=
  { st with stored_hidden := secrets, cache_hidden := secrets }

/-- EngineBase.get_all_secrets: fill the shared cache from a fresh
administration engine when empty, then shared.copy() updated with the hidden
bucket, then with the visible bucket. adminStored is the administration
engine's "secrets" bucket. -/
def EngineState.get_all_secrets (st : EngineState) (adminStored : Dict) :
    EngineState × Dict :=
  let st1 := if st.cache_shared.isEmpty then { st with cache_shared := adminStored } else st
  let hres := st1.get_hidden_secrets
  let vres := hres.1.get_secrets
  (vres.1, dupdate (dupdate st1.cache_shared hres.2) vres.2)

end Shared

namespace Shared

/-! ## VaultClient facade (src/tools/vault_tools.py)

Mount contents of the remote broker are modelled as an association list from
mount point to the dict stored at VaultClient.secrets_path of that mount.
KV-v2 create_or_update_secret replaces the whole dict at the path. -/

/-- The remote broker's per-mount secret data. -/
abbrev Store := List (String × Dict)

/-- VAULT_ADMINISTRATION_NAME (src/tools/constants.py line 56). -/
def adminName : String := "administration"

structure VClient where
  is_administration : Bool
  vault_name : String
  cache_secrets : Dict
  cache_hidden : Dict
  cache_shared : Dict
deriving DecidableEq

/-- kv_mount = f'kv-for-{vault_name}'. -/
def VClient.kv_mount (c : VClient) : String := "kv-for-" ++ c.vault_name

/-- hidden_kv_mount = f'kv-for-hidden-{vault_name}'. -/
def VClient.hidden_kv_mount (c : VClient) : String := "kv-for-hidden-" ++ c.vault_name

/-- VaultClient(project=None): the administration client, caches empty. -/
def VClient.mkAdmin : VClient := ⟨true, adminName, [], [], []⟩

/-- VaultClient(project=p): a freshly constructed tenant client. -/
def VClient.mkTenant (name : String) : VClient := ⟨false, name, [], [], []⟩

/-- VaultClient._get_vault_data: the data dict at secrets_path of a mount
(empty when absent). -/
def getVaultData (store : Store) (mount : String) : Dict :=
  (aget store mount).getD []

/-- VaultClient.set_secrets: KV write to kv_mount plus cache refresh. -/
def VClient.set_secrets (c : VClient) (store : Store) (secrets : Dict) :
    VClient × Store :=
  ({ c with cache_secrets := secrets }, aset store c.kv_mount secrets)

/-- VaultClient.set_hidden_secrets: for the administration client it first
calls set_project_secrets (the visible store), then falls through and also
writes the hidden mount; for tenants only the hidden mount is written. -/
def VClient.set_hidden_secrets (c : VClient) (store : Store) (secrets : Dict) :
    VClient × Store :=
  let first := if c.is_administration then c.set_secrets store secrets else (c, store)
  ({ first.1 with cache_hidden := secrets },
    aset first.2 ("kv-for-hidden-" ++ c.vault_name) secrets)

/-- VaultClient.get_secrets: read-through cache over kv_mount. -/
def VClient.get_secrets (c : VClient) (store : Store) : VClient × Dict :=
  if c.cache_secrets.isEmpty then
    ({ c with cache_secrets := getVaultData store c.kv_mount },
      getVaultData store c.kv_mount)
  else (c, c.cache_secrets)

/-- VaultClient.get_hidden_secrets: the administration client is redirected to
get_secrets; tenants use a read-through cache over hidden_kv_mount. -/
def VClient.get_hidden_secrets (c : VClient) (store : Store) : VClient × Dict :=
  if c.is_administration then c.get_secrets store
  else if c.cache_hidden.isEmpty then
    ({ c with cache_hidden := getVaultData store c.hidden_kv_mount },
      getVaultData store c.hidden_kv_mount)
  else (c, c.cache_hidden)

/-- The administration client's get_all_secrets (which is its get_secrets)
evaluated on a fresh client, as VaultClient.get_all_secrets constructs it. -/
def adminAllSecrets (store : Store) : Dict :=
  (VClient.mkAdmin.get_secrets store).2

/-- VaultClient.get_all_secrets: for the administration client just
get_secrets; for tenants fill the shared cache from a fresh administration
client when empty, then update the shared cache dict in place — VaultClient
line 383 takes the cached dict itself, without a copy, so the merged result
is also stored back as the new shared cache. -/
def VClient.get_all_secrets (c : VClient) (store : Store) : VClient × Dict :=
  if c.is_administration then c.get_secrets store
  else
    let c1 := if c.cache_shared.isEmpty
      then { c with cache_shared := adminAllSecrets store } else c
    let hres := c1.get_hidden_secrets store
    let vres := hres.1.get_secrets store
    let all := dupdate (dupdate c1.cache_shared hres.2) vres.2
    ({ vres.1 with cache_shared := all }, all)

theorem kv_mount_ne_hidden (n : String) :
    ¬ ("kv-for-" ++ n = "kv-for-hidden-" ++ n) := by
  intro h
  have hlen := congrArg String.length h
  have h1 : ("kv-for-" : String).length = 7 := by decide
  have h2 : ("kv-for-hidden-" : String).length = 14 := by decide
  rw [String.length_append, String.length_append, h1, h2] at hlen
  omega

end Shared

namespace Shared

/-! ## Python value trees (EngineBase.unsecret dispatch)

A Python value as seen by EngineBase.unsecret: str, list, dict, or anything
else (tuple, set and other types are distinguished so the dispatch can be
stated). Lists and dicts carry an identity tag modelling Python object
identity: the source mutates them in place (array[i] = ..., json_data[key] =
...), so the object returned is the object passed in; in this pure model that
is expressed by the tag being preserved.

The recursion is fueled; any fuel at least the nesting depth of the value
gives the same result (pyUnsecretF_fuel), so theorems are stated for an
arbitrary sufficient fuel and concrete runs use a literal bound. -/

inductive PyVal : Type where
  | vstr (s : String)
  | vlist (oid : Nat) (xs : List PyVal)
  | vtuple (xs : List PyVal)
  | vset (xs : List PyVal)
  | vdict (oid : Nat) (entries : List (String × PyVal))
  | vother (tag : Nat)

/-- EngineBase.unsecret (track_used_secrets disabled): strings through
__unsecret_string, lists element-wise in place, dicts value-wise in place,
every other type returned unchanged (the final return value). -/
def pyUnsecretF (m : Dict) : Nat → PyVal → PyVal
  | 0, v => v
  | _ + 1, .vstr s => .vstr (secretSub m s)
  | fuel + 1, .vlist oid xs => .vlist oid (xs.map (pyUnsecretF m fuel))
  | fuel + 1, .vdict oid es => .vdict oid (es.map (fun e => (e.1, pyUnsecretF m fuel e.2)))
  | _ + 1, v => v

/-- Fueled collection of the identity tags of all lists and dicts in a value. -/
def idsOfF : Nat → PyVal → List Nat
  | 0, _ => []
  | fuel + 1, .vlist oid xs => oid :: (xs.map (idsOfF fuel)).flatten
  | fuel + 1, .vtuple xs => (xs.map (idsOfF fuel)).flatten
  | fuel + 1, .vset xs => (xs.map (idsOfF fuel)).flatten
  | fuel + 1, .vdict oid es => oid :: (es.map (fun e => idsOfF fuel e.2)).flatten
  | _ + 1, _ => []

theorem pyVal_sizeOf_pos (v : PyVal) : 0 < sizeOf v := by
  cases v <;> simp_arith

/-- The fuel bound is irrelevant once it covers the value. -/
theorem pyUnsecretF_fuel (m : Dict) :
    ∀ (f1 : Nat) (v : PyVal) (f2 : Nat), sizeOf v ≤ f1 → sizeOf v ≤ f2 →
      pyUnsecretF m f1 v = pyUnsecretF m f2 v := by
  intro f1
  induction f1 with
  | zero =>
    intro v f2 h1 _
    exact absurd h1 (by have := pyVal_sizeOf_pos v; omega)
  | succ f ih =>
    intro v f2 h1 h2
    cases f2 with
    | zero => exact absurd h2 (by have := pyVal_sizeOf_pos v; omega)
    | succ f2 =>
      cases v with
      | vstr s => rfl
      | vtuple xs => rfl
      | vset xs => rfl
      | vother t => rfl
      | vlist oid xs =>
        show PyVal.vlist oid (xs.map (pyUnsecretF m f))
          = PyVal.vlist oid (xs.map (pyUnsecretF m f2))
        have hsz : sizeOf (PyVal.vlist oid xs) = 1 + sizeOf oid + sizeOf xs := by
          simp_arith
        congr 1
        apply List.map_congr_left
        intro x hx
        have hxs : sizeOf x < sizeOf xs := List.sizeOf_lt_of_mem hx
        rw [hsz] at h1 h2
        exact ih x f2 (by omega) (by omega)
      | vdict oid es =>
        show PyVal.vdict oid (es.map (fun e => (e.1, pyUnsecretF m f e.2)))
          = PyVal.vdict oid (es.map (fun e => (e.1, pyUnsecretF m f2 e.2)))
        have hsz : sizeOf (PyVal.vdict oid es) = 1 + sizeOf oid + sizeOf es := by
          simp_arith
        congr 1
        apply List.map_congr_left
        intro e he
        have hes : sizeOf e < sizeOf es := List.sizeOf_lt_of_mem he
        have he2 : sizeOf e.2 < sizeOf e := by
          obtain ⟨a, b⟩ := e
          simp_arith
        rw [hsz] at h1 h2
        have : pyUnsecretF m f e.2 = pyUnsecretF m f2 e.2 :=
          ih e.2 f2 (by omega) (by omega)
        rw [this]

/-- Substitution never changes the identity tags of the structure, at any
fuel bound: the mutated-in-place objects are the objects passed in. -/
theorem idsOfF_pyUnsecretF (m : Dict) :
    ∀ (fuel : Nat) (v : PyVal), idsOfF fuel (pyUnsecretF m fuel v) = idsOfF fuel v := by
  intro fuel
  induction fuel with
  | zero => intro v; rfl
  | succ f ih =>
    intro v
    cases v with
    | vstr s => rfl
    | vtuple xs => rfl
    | vset xs => rfl
    | vother t => rfl
    | vlist oid xs =>
      show oid :: ((xs.map (pyUnsecretF m f)).map (idsOfF f)).flatten
        = oid :: (xs.map (idsOfF f)).flatten
      rw [List.map_map]
      have : (xs.map (idsOfF f ∘ pyUnsecretF m f)) = xs.map (idsOfF f) :=
        List.map_congr_left (fun x _ => ih x)
      rw [this]
    | vdict oid es =>
      show oid :: ((es.map (fun e => (e.1, pyUnsecretF m f e.2))).map
          (fun e => idsOfF f e.2)).flatten
        = oid :: (es.map (fun e => idsOfF f e.2)).flatten
      rw [List.map_map]
      have : (es.map ((fun e => idsOfF f e.2) ∘ (fun e => (e.1, pyUnsecretF m f e.2))))
          = es.map (fun e => idsOfF f e.2) := by
        apply List.map_congr_left
        intro e _
        show idsOfF f (pyUnsecretF m f e.2) = idsOfF f e.2
        exact ih e.2
      rw [this]

end Shared

namespace Shared

/-! ## VaultClient bootstrap and credentials (src/tools/vault_tools.py) -/

/-- VaultAuth pydantic model: role_id and secret_id both default to "-". -/
structure VaultAuth where
  role_id : String
  secret_id : String
deriving DecidableEq

/-- The default (sentinel) pair ("-", "-"). -/
def VaultAuth.sentinel : VaultAuth := ⟨"-", "-"⟩

/-- VaultAuth._is_default: both fields equal the field default "-". -/
def VaultAuth.is_default (a : VaultAuth) : Bool :=
  a.role_id == "-" && a.secret_id == "-"

/-- VaultDbModel: the persisted unseal record (root token plus key shares). -/
structure VaultDbModel where
  root_token : String
  keys : List String
  keys_base64 : List String
deriving DecidableEq

/-- The observable state of the remote Vault broker. -/
structure BrokerState where
  initialized : Bool
  sealed : Bool
  unseal_keys : List String
  auth_approle_enabled : Bool
deriving DecidableEq

/-- client.sys.initialize(): the broker becomes initialized and sealed and
accepts exactly the freshly minted key shares. -/
def brokerInit (br : BrokerState) (fresh : VaultDbModel) : BrokerState :=
  { br with initialized := true, sealed := true, unseal_keys := fresh.keys }

/-- VaultClient.init_vault (vault_tools.py lines 164-202). The db argument is
the persisted Vault row (None when absent); fresh stands for the data a
client.sys.initialize() call would return. Returns the new db row, the new
broker state, and the db_data the method returns. The bare raise on line 173
(db row absent but broker initialized) is the only fatal branch; when a db
row exists and the broker reports uninitialized, the code re-initializes and
overwrites the row (lines 186-190). Unsealing submits the stored key shares;
enable_auth_method tolerates already-enabled. -/
def init_vault (db : Option VaultDbModel) (br : BrokerState) (fresh : VaultDbModel) :
    Except String (Option VaultDbModel × BrokerState × VaultDbModel) :=
  let step : Except String (Option VaultDbModel × BrokerState × VaultDbModel) :=
    match db with
    | none =>
        if br.initialized then
          .error "Vault is initialized, but no keys found in db!"
        else
          .ok (some fresh, brokerInit br fresh, fresh)
    | some data =>
        if br.initialized then .ok (some data, br, data)
        else .ok (some fresh, brokerInit br fresh, fresh)
  match step with
  | .error e => .error e
  | .ok (db1, br1, d) =>
      if br1.sealed then
        if d.keys = br1.unseal_keys then
          .ok (db1, { br1 with sealed := false, auth_approle_enabled := true }, d)
        else .error "unseal failed"
      else .ok (db1, { br1 with auth_approle_enabled := true }, d)

/-- The identity a VaultClient.client ends up operating as. -/
inductive ClientIdent : Type where
  | rootToken (token : String)
  | approle (role_id : String)
deriving DecidableEq

/-- VaultClient.client (lines 149-162): build an hvac client holding the
stored root token; when tenant auth data is present, attempt an AppRole
login; a login failure (NotImplementedError / InvalidRequest) is caught with
a warning and the client keeps operating with the root token. loginOk
abstracts whether the broker accepts the credential pair. -/
def clientIdent (auth : Option VaultAuth) (root_token : String)
    (loginOk : VaultAuth → Bool) : ClientIdent :=
  match auth with
  | none => .rootToken root_token
  | some a => if loginOk a then .approle a.role_id else .rootToken root_token

/-- The fix_project_auth branch of VaultClient.__init__ (lines 129-137): when
the client is not administration and the stored auth is present and is the
sentinel, regenerate via _init_approle (regen) and persist the result when it
is usable. Returns the resulting auth and whether a persist happened. -/
def fixProjectAuth (is_admin : Bool) (auth : Option VaultAuth) (regen : VaultAuth) :
    Option VaultAuth × Bool :=
  match auth with
  | some a =>
      if is_admin = false ∧ a.is_default = true then (some regen, !regen.is_default)
      else (some a, false)
  | none => (none, false)

end Shared

namespace Shared

/-! ## Provisioning (filesystem engine and Vault backend) -/

/-- The decrypted persisted blob of the filesystem/database engines. -/
structure Blob where
  secrets : Dict
  hidden_secrets : Dict
deriving DecidableEq

/-- Filesystem engine state: the per-tenant key file and the encrypted
secrets file; the secrets file records which key encrypted it. Master-key
wrapping of the key file does not affect the provisioning claims and is the
identity here. -/
structure FsState where
  key_file : Option Nat
  secrets_file : Option (Nat × Blob)
deriving DecidableEq

/-- Engine._write (filesystem): read the key file, encrypt the blob with it
and write the secrets file; a missing key file raises. -/
def fs_write (st : FsState) (data : Blob) : Except String FsState :=
  match st.key_file with
  | some k => .ok { st with secrets_file := some (k, data) }
  | none => .error "FileNotFoundError: key file"

/-- Engine.create_project_space (filesystem, lines 94-107): generate and
write a key only when the key file is absent; write an empty blob only when
the secrets file is absent. freshKey is the Fernet.generate_key() result. -/
def fs_create_project_space (st : FsState) (freshKey : Nat) : Except String FsState :=
  let st1 := if st.key_file.isNone then { st with key_file := some freshKey } else st
  if st1.secrets_file.isNone then
    fs_write st1 ⟨[], []⟩
  else .ok st1

/-- Broker-side state touched by VaultClient provisioning. -/
structure VKState where
  mounts : Store
  policies : List (String × List String)
  roles : List String
deriving DecidableEq

/-- VaultClient._add_secrets_engine: enable a KV mount and seed an empty dict
at secrets_path; when the mount already exists the enable raises
InvalidRequest, which the surrounding try catches, skipping the seed write
too — existing mount data is left untouched. -/
def add_secrets_engine (st : VKState) (mount_path : String) : VKState :=
  match aget st.mounts mount_path with
  | some _ => st
  | none => { st with mounts := aset st.mounts mount_path [] }

/-- The path grants rendered by VaultClient.__set_policy. -/
def policy_paths (is_admin : Bool) (kv hidden_kv : String) : List String :=
  ["auth/approle/login", "auth/carrier-approle/login", kv ++ "/*", hidden_kv ++ "/*"]
    ++ if is_admin then [] else ["kv-for-administration/*"]

/-- VaultClient._init_approle (lines 264-285): create_or_update the role
(idempotent on the role set), read its stable role_id, and generate a fresh
secret_id — a new one on every call. The NotImplementedError fallback for
outdated brokers is not modelled. -/
def init_approle (st : VKState) (approle_name : String) (freshSecret : String) :
    VKState × VaultAuth :=
  let st1 := { st with
    roles := if approle_name ∈ st.roles then st.roles else st.roles ++ [approle_name] }
  (st1, ⟨"role-id-" ++ approle_name, freshSecret⟩)

/-- VaultClient.create_project_space (lines 287-309): write the policy,
ensure the two KV mounts, then mint AppRole credentials. -/
def vault_create_project_space (st : VKState) (vault_name : String) (is_admin : Bool)
    (freshSecret : String) : VKState × VaultAuth :=
  let kv := "kv-for-" ++ vault_name
  let hkv := "kv-for-hidden-" ++ vault_name
  let st1 := { st with
    policies := aset st.policies ("policy-for-" ++ vault_name) (policy_paths is_admin kv hkv) }
  let st2 := add_secrets_engine st1 kv
  let st3 := add_secrets_engine st2 hkv
  init_approle st3 ("role-for-" ++ vault_name) freshSecret

end Shared

namespace Shared

/-! ## SecretString (src/tools/secret_field.py) -/

/-- Character class [A-Za-z0-9_-] of SecretString._secret_pattern — unlike
EngineBase's token pattern it also accepts the hyphen. -/
def isFieldNameChar (c : Char) : Bool := c.isAlphanum || c == '_' || c == '-'

/-- re.fullmatch(SecretString._secret_pattern, s) returning group(1): the
whole string must be an opener, a nonempty run of field-name characters, and
the two closing braces. -/
def fieldFullmatch (s : String) : Option String :=
  match dropLit tokOpen s.toList with
  | none => none
  | some rest =>
    if (rest.takeWhile isFieldNameChar).isEmpty then none
    else
      match rest.dropWhile isFieldNameChar with
      | [c1, c2] =>
        if c1 = '}' ∧ c2 = '}' then some (String.mk (rest.takeWhile isFieldNameChar))
        else none
      | _ => none

/-- The hidden bucket as SecretString.store_secret sees it; values can be
Python None (the _secret_value of a legacy indirect instance). -/
abbrev FDict := List (String × Option String)

structure SecretString where
  project_id : Option Nat
  secret_repr : Option String
  secret_value : Option String
  is_secret : Bool
deriving DecidableEq

/-- SecretString.__init__ on a plain string (the non-dict branch, lines
93-99): classify against the anchored pattern; line 99 then assigns
_secret_value = value unconditionally, for indirect instances too. -/
def SecretString.ofString (value : String) (project_id : Option Nat) : SecretString :=
  let isSec := (fieldFullmatch value).isSome
  { project_id := project_id
    secret_repr := if isSec then some value else none
    secret_value := some value
    is_secret := isSec }

/-- SecretString.__init__ on a legacy dict with from_secrets and value. -/
def SecretString.ofLegacy (from_secrets : Bool) (value : String) (project_id : Option Nat) :
    SecretString :=
  if from_secrets then ⟨project_id, some value, none, true⟩
  else ⟨project_id, none, some value, false⟩

/-- Python truthiness of an optional string: None and "" are falsy. -/
def pyFalsy : Option String → Bool
  | none => true
  | some s => s == ""

/-- SecretString.get_secret_value (lines 115-119): resolve through
VaultClient.unsecret only when _secret_value is falsy and the instance is
indirect; resolve abstracts client.unsecret applied to the representation. -/
def SecretString.get_secret_value (s : SecretString) (resolve : String → String) :
    SecretString × Option String :=
  if pyFalsy s.secret_value && s.is_secret then
    ({ s with secret_value := some (resolve (s.secret_repr.getD "")) },
      some (resolve (s.secret_repr.getD "")))
  else (s, s.secret_value)

/-- SecretString.store_secret (lines 121-129): mint a representation from
uuid4() only when _secret_repr is falsy, extract the name via _secret_name
(an exception propagates when the representation does not match the
pattern), read-modify-write the hidden bucket with hs[name] = _secret_value,
flip the instance to indirect and return the representation. freshName is
the uuid4() string (hex digits and hyphens). There is no force parameter:
a second call finds _secret_repr set, skips minting and rewrites the same
hidden entry. -/
def SecretString.store_secret (s : SecretString) (freshName : String) (hidden : FDict) :
    Except String (SecretString × FDict × String) :=
  let r := match s.secret_repr with
    | some r0 => if r0 = "" then "\x7b\x7bsecret." ++ freshName ++ "\x7d\x7d" else r0
    | none => "\x7b\x7bsecret." ++ freshName ++ "\x7d\x7d"
  match fieldFullmatch r with
  | none => .error "AttributeError in _secret_name"
  | some nm =>
      .ok ({ s with secret_repr := some r, is_secret := true },
        aset hidden nm s.secret_value, r)

end Shared

namespace Shared

/-! ## Claim theorems -/

/-- C1 counterexample: EngineBase.__unsecret_string uses re.sub with an
unanchored pattern, so a token embedded amid other text IS substituted —
the string "host-\x7b\x7bsecret.x\x7d\x7d" is not returned verbatim, contradicting the
whole-string-token-only claim. -/
theorem C1_counterexample :
    secretSub [("x", "v")] "host-\x7b\x7bsecret.x\x7d\x7d" = "host-v"
      ∧ ("host-v" : String) ≠ "host-\x7b\x7bsecret.x\x7d\x7d" := by
  constructor
  · decide
  · decide

/-- C1 (amended): EngineBase substitution replaces every occurrence of a
token within the string — including one embedded after other text — by the
looked-up value; a string whose found token names are all absent from the
map is returned verbatim (unknown names resolve to their literal token
text), and no error is raised for unknown names. A whole-string token with a
known name yields exactly the secret value. -/
theorem C1_amended (m : Dict) (n v s p : String)
    (hn : validName n) (hv : aget m n = some v)
    (hs : ∀ t ∈ findRun s.toList, aget m t = none)
    (hp : ∀ c ∈ p.toList, ¬ c = '{') :
    secretSub m (tokStr n) = v
      ∧ secretSub m s = s
      ∧ secretSub m (p ++ tokStr n) = p ++ v :=
  ⟨secretSub_whole_token m n v hn hv, secretSub_id m s hs,
    secretSub_embedded m p n v hp hn hv⟩

/-- C1 witness: the amended theorem instantiated at a known name "x", an
all-unknown string, and an embedded occurrence. -/
theorem C1_amended_witness :
    secretSub [("x", "v")] (tokStr "x") = "v"
      ∧ secretSub [("x", "v")] "\x7b\x7bsecret.missing\x7d\x7d" = "\x7b\x7bsecret.missing\x7d\x7d"
      ∧ secretSub [("x", "v")] ("host-" ++ tokStr "x") = "host-" ++ "v" :=
  C1_amended [("x", "v")] "x" "v" "\x7b\x7bsecret.missing\x7d\x7d" "host-"
    (by constructor <;> decide) (by decide) (by decide) (by decide)

/-- C7 counterexample: a tuple is not mapped element-wise — EngineBase.unsecret
returns it unchanged, token and all, because only str, list and dict are
dispatched; yet the same string processed directly is substituted. -/
theorem C7_counterexample :
    pyUnsecretF [("x", "v")] 10 (.vtuple [.vstr "\x7b\x7bsecret.x\x7d\x7d"])
        = .vtuple [.vstr "\x7b\x7bsecret.x\x7d\x7d"]
      ∧ secretSub [("x", "v")] "\x7b\x7bsecret.x\x7d\x7d" = "v"
      ∧ ("\x7b\x7bsecret.x\x7d\x7d" : String) ≠ "v" :=
  ⟨rfl, by decide, by decide⟩

/-- C7 (amended): unsecret dispatches on the value type: strings go through
the token grammar, lists are mapped element-wise, dicts are mapped value-wise
over all keys, and every other type — including tuples and sets — passes
through unchanged. The spec's nested recursive-substitution example holds. -/
theorem C7_amended (m : Dict) (fuel : Nat) (s : String) (xs : List PyVal)
    (es : List (String × PyVal)) (oid t : Nat) :
    pyUnsecretF m (fuel + 1) (.vstr s) = .vstr (secretSub m s)
      ∧ pyUnsecretF m (fuel + 1) (.vlist oid xs) = .vlist oid (xs.map (pyUnsecretF m fuel))
      ∧ pyUnsecretF m (fuel + 1) (.vdict oid es)
          = .vdict oid (es.map (fun e => (e.1, pyUnsecretF m fuel e.2)))
      ∧ pyUnsecretF m (fuel + 1) (.vtuple xs) = .vtuple xs
      ∧ pyUnsecretF m (fuel + 1) (.vset xs) = .vset xs
      ∧ pyUnsecretF m (fuel + 1) (.vother t) = .vother t
      ∧ pyUnsecretF [("x", "1"), ("y", "2")] 10
          (.vdict 0 [("a", .vlist 1 [.vstr "\x7b\x7bsecret.x\x7d\x7d",
            .vdict 2 [("b", .vstr "\x7b\x7bsecret.y\x7d\x7d")]])])
          = .vdict 0 [("a", .vlist 1 [.vstr "1", .vdict 2 [("b", .vstr "2")]])] :=
  ⟨rfl, rfl, rfl, rfl, rfl, rfl, rfl⟩

/-- C8 counterexample: a name that dereferences to the empty string is
substituted (the output is "" rather than the token) but its value is NOT
added to used_secrets, because the tracking loop tests Python truthiness of
the value — so not every successfully dereferenced name contributes. -/
theorem C8_counterexample :
    unsecretString ⟨true, []⟩ [("x", "")] "\x7b\x7bsecret.x\x7d\x7d" = (⟨true, []⟩, "")
      ∧ ("" : String) ≠ "\x7b\x7bsecret.x\x7d\x7d" := by
  constructor
  · decide
  · decide

/-- C8 (amended): with tracking enabled, every secret name that dereferences
to a truthy (non-empty) value during an unsecret call adds that value — not
the name — to used_secrets; in particular resolving the token for x against
x mapped to "v" leaves exactly "v" in the set. -/
theorem C8_amended (st : TrackState) (m : Dict) (s n v : String)
    (htr : st.track_used_secrets = true)
    (hn : n ∈ findRun s.toList) (hv : aget m n = some v) (hne : ¬ v = "") :
    v ∈ (unsecretString st m s).1.used_secrets
      ∧ unsecretString ⟨true, []⟩ [("x", "v")] "\x7b\x7bsecret.x\x7d\x7d" = (⟨true, ["v"]⟩, "v") := by
  constructor
  · show v ∈ (if st.track_used_secrets
        then { st with used_secrets := trackUsed m s st.used_secrets }
        else st).used_secrets
    rw [htr]
    simp only [if_true]
    exact mem_foldl_trackStep m v (findRun s.toList) st.used_secrets
      (Or.inl ⟨n, hn, hv, hne⟩)
  · decide

/-- C8 witness: the amended theorem at the spec's own example. -/
theorem C8_amended_witness :
    ("v" : String) ∈ (unsecretString ⟨true, []⟩ [("x", "v")] "\x7b\x7bsecret.x\x7d\x7d").1.used_secrets
      ∧ unsecretString ⟨true, []⟩ [("x", "v")] "\x7b\x7bsecret.x\x7d\x7d" = (⟨true, ["v"]⟩, "v") :=
  C8_amended ⟨true, []⟩ [("x", "v")] "\x7b\x7bsecret.x\x7d\x7d" "x" "v" rfl
    (by decide) (by decide) (by decide)

/-- C10: unsecret mutates list and dict arguments in place — modelled by
identity tags, the returned structure carries the tag of the argument, with
each element (for lists) and each key's value (for dicts) overwritten by its
substituted form, and no identity tag anywhere in the structure changes; on
a concrete list the token strings are gone from the same (tag-preserved)
object afterwards. -/
theorem C10_inplace (m : Dict) (fuel oid : Nat) (xs : List PyVal)
    (es : List (String × PyVal)) :
    pyUnsecretF m (fuel + 1) (.vlist oid xs) = .vlist oid (xs.map (pyUnsecretF m fuel))
      ∧ pyUnsecretF m (fuel + 1) (.vdict oid es)
          = .vdict oid (es.map (fun e => (e.1, pyUnsecretF m fuel e.2)))
      ∧ (∀ (f : Nat) (v : PyVal), idsOfF f (pyUnsecretF m f v) = idsOfF f v)
      ∧ pyUnsecretF [("x", "v")] 10 (.vlist 7 [.vstr "\x7b\x7bsecret.x\x7d\x7d"])
          = .vlist 7 [.vstr "v"] :=
  ⟨rfl, rfl, fun f v => idsOfF_pyUnsecretF m f v, rfl⟩

end Shared

namespace Shared

theorem engine_get_all_fresh (vis hid shared : Dict) :
    ((EngineState.fresh vis hid).get_all_secrets shared).2
      = dupdate (dupdate shared hid) vis := rfl

theorem vclient_get_all_fresh (name : String) (store : Store) :
    ((VClient.mkTenant name).get_all_secrets store).2
      = dupdate (dupdate (adminAllSecrets store)
          (getVaultData store ("kv-for-hidden-" ++ name)))
          (getVaultData store ("kv-for-" ++ name)) := rfl

/-- The store for the C5 counterexample run: empty administration mount, one
visible tenant secret, empty hidden tenant mount. -/
def c5store : Store :=
  [("kv-for-administration", []), ("kv-for-1", [("n", "v1")]), ("kv-for-hidden-1", [])]

/-- C5 counterexample: VaultClient.get_all_secrets stores the merged dict
back into the shared-layer cache without a copy (line 383 aliases the cache
dict), so after the tenant's visible bucket is emptied, a second
get_all_secrets on the same facade still reports n = "v1" although n is
absent from all three layers — the result is not the merge of shared, hidden
and visible. -/
theorem C5_counterexample :
    ((((VClient.mkTenant "1").get_all_secrets c5store).1.set_secrets c5store
        []).1.get_all_secrets
          (((VClient.mkTenant "1").get_all_secrets c5store).1.set_secrets c5store []).2).2
      = [("n", "v1")]
      ∧ aget (getVaultData
          (((VClient.mkTenant "1").get_all_secrets c5store).1.set_secrets c5store []).2
          "kv-for-administration") "n" = none
      ∧ aget (getVaultData
          (((VClient.mkTenant "1").get_all_secrets c5store).1.set_secrets c5store []).2
          "kv-for-hidden-1") "n" = none
      ∧ aget (getVaultData
          (((VClient.mkTenant "1").get_all_secrets c5store).1.set_secrets c5store []).2
          "kv-for-1") "n" = none := by
  refine ⟨?_, ?_, ?_, ?_⟩ <;> decide

/-- C5 (amended): on a fresh facade the merge precedence holds as claimed for
both engines: EngineBase.get_all_secrets merges shared, then hidden, then
visible (a collision resolves to the visible value, a name absent from
visible falls back to hidden, a name absent from both falls back to shared),
and VaultClient.get_all_secrets on a fresh tenant client computes the same
shaped merge from the three mounts. On a reused VaultClient facade the
merged result is aliased into the shared cache, so later calls can deviate
(see the counterexample); EngineBase copies and is immune. -/
theorem C5_amended (shared hid vis : Dict) (n : String)
    (hh : nodupKeys hid) (hv : nodupKeys vis) (store : Store) (name : String) :
    (∀ w, aget vis n = some w
        → aget ((EngineState.fresh vis hid).get_all_secrets shared).2 n = some w)
      ∧ (aget vis n = none → ∀ w, aget hid n = some w
          → aget ((EngineState.fresh vis hid).get_all_secrets shared).2 n = some w)
      ∧ (aget vis n = none → aget hid n = none
          → aget ((EngineState.fresh vis hid).get_all_secrets shared).2 n = aget shared n)
      ∧ ((VClient.mkTenant name).get_all_secrets store).2
          = dupdate (dupdate (adminAllSecrets store)
              (getVaultData store ("kv-for-hidden-" ++ name)))
              (getVaultData store ("kv-for-" ++ name)) := by
  have key : aget ((EngineState.fresh vis hid).get_all_secrets shared).2 n
      = if (aget vis n).isSome then aget vis n
        else if (aget hid n).isSome then aget hid n else aget shared n := by
    rw [engine_get_all_fresh, aget_dupdate vis hv, aget_dupdate hid hh]
  refine ⟨?_, ?_, ?_, vclient_get_all_fresh name store⟩
  · intro w hw
    rw [key, hw]
    rfl
  · intro hvn w hw
    rw [key, hvn, hw]
    rfl
  · intro hvn hhn
    rw [key, hvn, hhn]
    rfl

/-- C5 witness: the amended theorem at the spec's three-layer example. -/
theorem C5_amended_witness :
    (∀ w, aget [("n", "v")] "n" = some w
        → aget ((EngineState.fresh [("n", "v")] [("n", "h")]).get_all_secrets
            [("n", "s")]).2 "n" = some w)
      ∧ (aget [("n", "v")] "n" = none → ∀ w, aget [("n", "h")] "n" = some w
          → aget ((EngineState.fresh [("n", "v")] [("n", "h")]).get_all_secrets
              [("n", "s")]).2 "n" = some w)
      ∧ (aget [("n", "v")] "n" = none → aget [("n", "h")] "n" = none
          → aget ((EngineState.fresh [("n", "v")] [("n", "h")]).get_all_secrets
              [("n", "s")]).2 "n" = aget [("n", "s")] "n")
      ∧ ((VClient.mkTenant "1").get_all_secrets c5store).2
          = dupdate (dupdate (adminAllSecrets c5store)
              (getVaultData c5store ("kv-for-hidden-" ++ "1")))
              (getVaultData c5store ("kv-for-" ++ "1")) :=
  C5_amended [("n", "s")] [("n", "h")] [("n", "v")] "n"
    (by decide) (by decide) c5store "1"

/-- C9 counterexample: for the administration client, set_hidden_secrets
writes the payload to the visible mount and then falls through and ALSO
writes it to the administration's own hidden mount kv-for-hidden-administration
— which exists and is overwritten — so the operation is not a redirection to
the visible store of a tenant without a hidden store of its own. -/
theorem C9_counterexample :
    (VClient.mkAdmin.set_hidden_secrets
        [("kv-for-administration", [("a", "1")]),
          ("kv-for-hidden-administration", [("old", "x")])]
        [("n", "v")]).2
      = [("kv-for-administration", [("n", "v")]),
          ("kv-for-hidden-administration", [("n", "v")])]
      ∧ ([("n", "v")] : Dict) ≠ [("old", "x")] := by
  constructor
  · decide
  · decide

/-- C9 (amended): for the administration client get_hidden_secrets is
redirected to get_secrets (the visible bucket), and set_hidden_secrets
writes the payload to the visible mount AND to the administration's own
hidden mount (the code falls through instead of returning); for every
non-administration client set_hidden_secrets writes only the hidden mount. -/
theorem C9_amended (c : VClient) (store : Store) (m : Dict)
    (hadm : c.is_administration = true) (c' : VClient) (store' : Store) (m' : Dict)
    (hten : c'.is_administration = false) :
    c.get_hidden_secrets store = c.get_secrets store
      ∧ aget (c.set_hidden_secrets store m).2 c.kv_mount = some m
      ∧ aget (c.set_hidden_secrets store m).2 c.hidden_kv_mount = some m
      ∧ (c'.set_hidden_secrets store' m').2 = aset store' c'.hidden_kv_mount m' := by
  have hst : (c.set_hidden_secrets store m).2
      = aset (aset store c.kv_mount m) ("kv-for-hidden-" ++ c.vault_name) m := by
    unfold VClient.set_hidden_secrets VClient.set_secrets
    rw [hadm]
    rfl
  refine ⟨?_, ?_, ?_, ?_⟩
  · simp [VClient.get_hidden_secrets, hadm]
  · rw [hst, aget_aset, if_neg (fun h => kv_mount_ne_hidden c.vault_name h.symm),
      aget_aset, if_pos rfl]
  · rw [hst, aget_aset,
      if_pos (show ("kv-for-hidden-" ++ c.vault_name) = c.hidden_kv_mount from rfl)]
  · unfold VClient.set_hidden_secrets
    rw [hten]
    rfl

end Shared

namespace Shared

/-- C9 witness: the amended theorem at a concrete administration client and a
concrete tenant client. -/
theorem C9_amended_witness :
    VClient.mkAdmin.get_hidden_secrets [("kv-for-administration", [("a", "1")])]
        = VClient.mkAdmin.get_secrets [("kv-for-administration", [("a", "1")])]
      ∧ aget (VClient.mkAdmin.set_hidden_secrets [("kv-for-administration", [("a", "1")])]
          [("n", "v")]).2 VClient.mkAdmin.kv_mount = some [("n", "v")]
      ∧ aget (VClient.mkAdmin.set_hidden_secrets [("kv-for-administration", [("a", "1")])]
          [("n", "v")]).2 VClient.mkAdmin.hidden_kv_mount = some [("n", "v")]
      ∧ ((VClient.mkTenant "1").set_hidden_secrets [] [("n", "v")]).2
          = aset [] (VClient.mkTenant "1").hidden_kv_mount [("n", "v")] :=
  C9_amended VClient.mkAdmin [("kv-for-administration", [("a", "1")])] [("n", "v")] rfl
    (VClient.mkTenant "1") [] [("n", "v")] rfl

/-- C2 counterexample: with a persisted unseal record present and the broker
reporting not initialized, init_vault does not raise: it re-initializes the
broker (lines 186-190), overwrites the persisted record with the fresh
material, unseals with the new keys and returns ok — the opposite of the
claimed fatal, non-retryable error. -/
theorem C2_counterexample :
    init_vault (some ⟨"root-old", ["k-old"], ["kb-old"]⟩)
        ⟨false, true, [], false⟩ ⟨"root-new", ["k-new"], ["kb-new"]⟩
      = .ok (some ⟨"root-new", ["k-new"], ["kb-new"]⟩,
          ⟨true, false, ["k-new"], true⟩, ⟨"root-new", ["k-new"], ["kb-new"]⟩)
      ∧ (⟨"root-new", ["k-new"], ["kb-new"]⟩ : VaultDbModel)
          ≠ ⟨"root-old", ["k-old"], ["kb-old"]⟩ := by
  constructor
  · rfl
  · decide

/-- C2 (amended): the fatal branch of init_vault is the opposite case — no
persisted keys while the broker reports initialized raises; when persisted
keys exist but the broker reports not initialized, init_vault silently
re-initializes the broker, overwrites the persisted record with the fresh
unseal material, unseals and returns the fresh data. -/
theorem C2_amended (br : BrokerState) (d fresh : VaultDbModel) :
    (br.initialized = true → init_vault none br fresh
        = .error "Vault is initialized, but no keys found in db!")
      ∧ (br.initialized = false → init_vault (some d) br fresh
          = .ok (some fresh, ⟨true, false, fresh.keys, true⟩, fresh)) := by
  constructor
  · intro h
    unfold init_vault
    rw [h]
    rfl
  · intro h
    unfold init_vault brokerInit
    rw [h]
    simp

/-- C2 witness: both branches of the amended theorem at concrete states. -/
theorem C2_amended_witness :
    init_vault none ⟨true, true, [], false⟩ ⟨"r", ["k"], ["kb"]⟩
        = .error "Vault is initialized, but no keys found in db!"
      ∧ init_vault (some ⟨"r0", ["k0"], ["kb0"]⟩) ⟨false, true, [], false⟩
          ⟨"r", ["k"], ["kb"]⟩
        = .ok (some ⟨"r", ["k"], ["kb"]⟩, ⟨true, false, ["k"], true⟩, ⟨"r", ["k"], ["kb"]⟩) :=
  ⟨(C2_amended ⟨true, true, [], false⟩ ⟨"r0", ["k0"], ["kb0"]⟩ ⟨"r", ["k"], ["kb"]⟩).1 rfl,
    (C2_amended ⟨false, true, [], false⟩ ⟨"r0", ["k0"], ["kb0"]⟩ ⟨"r", ["k"], ["kb"]⟩).2 rfl⟩

/-- C3 counterexample: the sentinel pair ("-", "-") is recognized by
VaultAuth._is_default, yet when the AppRole login with it fails the client
property catches the failure and silently operates with the root token;
clientIdent is total — no BrokenCredentialsError exists anywhere in the code. -/
theorem C3_counterexample :
    VaultAuth.is_default ⟨"-", "-"⟩ = true
      ∧ clientIdent (some ⟨"-", "-"⟩) "root-tok" (fun _ => false)
          = .rootToken "root-tok" := by
  constructor
  · decide
  · rfl

/-- C3 (amended): a credential pair is flagged broken by VaultAuth._is_default
exactly when both fields are "-"; the client property falls back to the root
token whenever the AppRole login fails (and uses the AppRole identity when it
succeeds); re-provisioning happens only through the fix_project_auth
constructor branch, which regenerates a sentinel pair and reports whether the
regenerated pair should be persisted — no BrokenCredentialsError is raised. -/
theorem C3_amended (r s root : String) (a : VaultAuth) (login : VaultAuth → Bool)
    (regen : VaultAuth) :
    (VaultAuth.is_default ⟨r, s⟩ = true ↔ r = "-" ∧ s = "-")
      ∧ (login a = false → clientIdent (some a) root login = .rootToken root)
      ∧ (login a = true → clientIdent (some a) root login = .approle a.role_id)
      ∧ (a.is_default = true →
          fixProjectAuth false (some a) regen = (some regen, !regen.is_default)) := by
  refine ⟨?_, ?_, ?_, ?_⟩
  · simp [VaultAuth.is_default]
  · intro h
    simp [clientIdent, h]
  · intro h
    simp [clientIdent, h]
  · intro h
    simp [fixProjectAuth, h]

/-- C3 witness: the amended theorem at the sentinel pair, a failing login and
a usable regenerated pair. -/
theorem C3_amended_witness :
    (VaultAuth.is_default ⟨"-", "-"⟩ = true ↔ ("-" : String) = "-" ∧ ("-" : String) = "-")
      ∧ clientIdent (some ⟨"-", "-"⟩) "tok" (fun _ => false) = .rootToken "tok"
      ∧ fixProjectAuth false (some ⟨"-", "-"⟩) ⟨"rid", "sid"⟩
          = (some ⟨"rid", "sid"⟩, true) := by
  refine ⟨(C3_amended "-" "-" "tok" ⟨"-", "-"⟩ (fun _ => false) ⟨"rid", "sid"⟩).1, ?_, ?_⟩
  · exact (C3_amended "-" "-" "tok" ⟨"-", "-"⟩ (fun _ => false) ⟨"rid", "sid"⟩).2.1 rfl
  · have h := (C3_amended "-" "-" "tok" ⟨"-", "-"⟩ (fun _ => false)
      ⟨"rid", "sid"⟩).2.2.2 (by decide)
    rw [h]
    decide

end Shared

namespace Shared

theorem tokMint_ne_empty (n : String) : ¬ ("\x7b\x7bsecret." ++ n ++ "\x7d\x7d" = "") := by
  intro h
  have hlen := congrArg String.length h
  rw [String.length_append, String.length_append] at hlen
  have h1 : ("\x7b\x7bsecret." : String).length = 9 := by decide
  have h2 : ("\x7d\x7d" : String).length = 2 := by decide
  have h3 : ("" : String).length = 0 := by decide
  rw [h1, h2, h3] at hlen
  omega

/-- Stated from the claim's own grammar, for comparison with the code: an
anchored fullmatch of the token pattern with the hyphen-free name class
[A-Za-z0-9_] (the class of EngineBase._secret_pattern, which the claim
asserts for minted tokens). The minting pattern actually used by
SecretString (fieldFullmatch) additionally accepts the hyphen. -/
def specTokenFullmatch (s : String) : Option String :=
  match dropLit tokOpen s.toList with
  | none => none
  | some rest =>
    if (rest.takeWhile isNameChar).isEmpty then none
    else
      match rest.dropWhile isNameChar with
      | [c1, c2] =>
        if c1 = '}' ∧ c2 = '}' then some (String.mk (rest.takeWhile isNameChar))
        else none
      | _ => none

/-- C4 counterexample: promoting the literal "p@ss" with a uuid4 fresh name
mints a token containing hyphens, which does NOT match the claimed pattern
(hyphen-free name class); and a second store_secret on the now-indirect
instance returns normally with the same token — there is no force parameter
and no PromotionConflictError anywhere in the code. -/
theorem C4_counterexample :
    (SecretString.ofString "p@ss" none).store_secret
        "123e4567-e89b-12d3-a456-426614174000" []
      = .ok (⟨none, some "\x7b\x7bsecret.123e4567-e89b-12d3-a456-426614174000\x7d\x7d",
            some "p@ss", true⟩,
          [("123e4567-e89b-12d3-a456-426614174000", some "p@ss")],
          "\x7b\x7bsecret.123e4567-e89b-12d3-a456-426614174000\x7d\x7d")
      ∧ specTokenFullmatch "\x7b\x7bsecret.123e4567-e89b-12d3-a456-426614174000\x7d\x7d" = none
      ∧ SecretString.store_secret
          ⟨none, some "\x7b\x7bsecret.123e4567-e89b-12d3-a456-426614174000\x7d\x7d",
            some "p@ss", true⟩
          "fresh2" [("123e4567-e89b-12d3-a456-426614174000", some "p@ss")]
        = .ok (⟨none, some "\x7b\x7bsecret.123e4567-e89b-12d3-a456-426614174000\x7d\x7d",
              some "p@ss", true⟩,
            [("123e4567-e89b-12d3-a456-426614174000", some "p@ss")],
            "\x7b\x7bsecret.123e4567-e89b-12d3-a456-426614174000\x7d\x7d") := by
  refine ⟨rfl, by decide, rfl⟩

/-- C4 (amended): store_secret on an instance holding a literal mints a token
whose name is the supplied uuid4 string — matching the class's own anchored
pattern with hyphens allowed (the hypothesis hname), not the claimed
hyphen-free grammar — and merges name to literal into the hidden bucket; a
subsequent get_secret_value returns the original literal without resolving;
and a second store_secret does not raise: it returns the same token and
rewrites the same hidden entry, whatever fresh name it is offered. -/
theorem C4_amended (lit freshName : String) (hidden : FDict) (resolve : String → String)
    (hlit : fieldFullmatch lit = none) (hlit2 : ¬ lit = "")
    (hname : fieldFullmatch ("\x7b\x7bsecret." ++ freshName ++ "\x7d\x7d") = some freshName) :
    (SecretString.ofString lit none).store_secret freshName hidden
        = .ok (⟨none, some ("\x7b\x7bsecret." ++ freshName ++ "\x7d\x7d"), some lit, true⟩,
            aset hidden freshName (some lit), "\x7b\x7bsecret." ++ freshName ++ "\x7d\x7d")
      ∧ SecretString.get_secret_value
            ⟨none, some ("\x7b\x7bsecret." ++ freshName ++ "\x7d\x7d"), some lit, true⟩ resolve
          = (⟨none, some ("\x7b\x7bsecret." ++ freshName ++ "\x7d\x7d"), some lit, true⟩, some lit)
      ∧ ∀ (fresh2 : String) (hid2 : FDict),
          SecretString.store_secret
              ⟨none, some ("\x7b\x7bsecret." ++ freshName ++ "\x7d\x7d"), some lit, true⟩ fresh2 hid2
            = .ok (⟨none, some ("\x7b\x7bsecret." ++ freshName ++ "\x7d\x7d"), some lit, true⟩,
                aset hid2 freshName (some lit), "\x7b\x7bsecret." ++ freshName ++ "\x7d\x7d") := by
  have hbe : (lit == "") = false := by
    simp [hlit2]
  refine ⟨?_, ?_, ?_⟩
  · have hs0 : SecretString.ofString lit none = ⟨none, none, some lit, false⟩ := by
      unfold SecretString.ofString
      rw [hlit]
      rfl
    rw [hs0]
    unfold SecretString.store_secret
    dsimp only
    rw [hname]
  · unfold SecretString.get_secret_value
    simp [pyFalsy, hbe]
  · intro fresh2 hid2
    unfold SecretString.store_secret
    dsimp only
    rw [if_neg (tokMint_ne_empty freshName), hname]

/-- C4 witness: the amended theorem at the literal "p@ss" and a uuid4 name. -/
theorem C4_amended_witness :
    (SecretString.ofString "p@ss" none).store_secret
        "123e4567-e89b-12d3-a456-426614174000" [("k", some "w")]
      = .ok (⟨none, some "\x7b\x7bsecret.123e4567-e89b-12d3-a456-426614174000\x7d\x7d",
            some "p@ss", true⟩,
          aset [("k", some "w")] "123e4567-e89b-12d3-a456-426614174000" (some "p@ss"),
          "\x7b\x7bsecret.123e4567-e89b-12d3-a456-426614174000\x7d\x7d")
      ∧ SecretString.get_secret_value
          ⟨none, some "\x7b\x7bsecret.123e4567-e89b-12d3-a456-426614174000\x7d\x7d",
            some "p@ss", true⟩ (fun s => s)
        = (⟨none, some "\x7b\x7bsecret.123e4567-e89b-12d3-a456-426614174000\x7d\x7d",
            some "p@ss", true⟩, some "p@ss")
      ∧ SecretString.store_secret
          ⟨none, some "\x7b\x7bsecret.123e4567-e89b-12d3-a456-426614174000\x7d\x7d",
            some "p@ss", true⟩ "f2" []
        = .ok (⟨none, some "\x7b\x7bsecret.123e4567-e89b-12d3-a456-426614174000\x7d\x7d",
              some "p@ss", true⟩,
            aset [] "123e4567-e89b-12d3-a456-426614174000" (some "p@ss"),
            "\x7b\x7bsecret.123e4567-e89b-12d3-a456-426614174000\x7d\x7d") :=
  ⟨(C4_amended "p@ss" "123e4567-e89b-12d3-a456-426614174000" [("k", some "w")]
      (fun s => s) (by decide) (by decide) (by decide)).1,
    (C4_amended "p@ss" "123e4567-e89b-12d3-a456-426614174000" [("k", some "w")]
      (fun s => s) (by decide) (by decide) (by decide)).2.1,
    (C4_amended "p@ss" "123e4567-e89b-12d3-a456-426614174000" [("k", some "w")]
      (fun s => s) (by decide) (by decide) (by decide)).2.2 "f2" []⟩

end Shared

namespace Shared

/-- The state fs_create_project_space produces: key kept (or the fresh one
when absent), stored blob kept (or a fresh empty blob encrypted with the
resulting key when absent). -/
def fs_create_run (st : FsState) (freshKey : Nat) : FsState :=
  ⟨some (st.key_file.getD freshKey),
    some (st.secrets_file.getD (st.key_file.getD freshKey, ⟨[], []⟩))⟩

theorem fs_create_eq_run (st : FsState) (k : Nat) :
    fs_create_project_space st k = .ok (fs_create_run st k) := by
  obtain ⟨kf, sf⟩ := st
  cases kf <;> cases sf <;> rfl

theorem fs_create_run_idem (st : FsState) (k1 k2 : Nat) :
    fs_create_run (fs_create_run st k1) k2 = fs_create_run st k1 := by
  obtain ⟨kf, sf⟩ := st
  cases kf <;> cases sf <;> rfl

theorem add_secrets_engine_preserves (st : VKState) (mp q : String) (d : Dict)
    (hq : aget st.mounts q = some d) :
    aget (add_secrets_engine st mp).mounts q = some d := by
  unfold add_secrets_engine
  cases h : aget st.mounts mp with
  | some _ => exact hq
  | none =>
    dsimp only
    rw [aget_aset]
    by_cases hmq : mp = q
    · subst hmq
      rw [h] at hq
      cases hq
    · rw [if_neg hmq]
      exact hq

/-- C6 counterexample: for the Vault backend, a second create_project_space
on the same tenant mints a fresh secret_id (VaultClient._init_approle calls
generate_secret_id on every run), so the credential pair differs from the
first call's — the key material and credentials are NOT the same as calling
once. sid-1 and sid-2 stand for the two distinct values generate_secret_id
returns. -/
theorem C6_counterexample :
    (vault_create_project_space ⟨[], [], []⟩ "1" false "sid-1").2
        = ⟨"role-id-role-for-1", "sid-1"⟩
      ∧ (vault_create_project_space
          (vault_create_project_space ⟨[], [], []⟩ "1" false "sid-1").1 "1" false "sid-2").2
        = ⟨"role-id-role-for-1", "sid-2"⟩
      ∧ (⟨"role-id-role-for-1", "sid-1"⟩ : VaultAuth) ≠ ⟨"role-id-role-for-1", "sid-2"⟩ := by
  refine ⟨rfl, rfl, by decide⟩

/-- C6 (amended): the filesystem driver is idempotent as claimed — a second
create_project_space is a no-op returning the state of the first call, and an
existing key or blob is never overwritten; the Vault driver preserves
existing mount contents (an existing KV mount is never re-seeded) and keeps
the stable role_id, but regenerates the secret_id on every call, so the
second call's credential pair differs whenever the broker mints a different
secret. -/
theorem C6_amended (st : FsState) (k1 k2 : Nat)
    (vst : VKState) (name : String) (adm : Bool) (s1 s2 : String) (mdata : Dict)
    (hm : aget vst.mounts ("kv-for-" ++ name) = some mdata) :
    fs_create_project_space st k1 = .ok (fs_create_run st k1)
      ∧ fs_create_project_space (fs_create_run st k1) k2 = .ok (fs_create_run st k1)
      ∧ (∀ k0, st.key_file = some k0 → (fs_create_run st k1).key_file = some k0)
      ∧ (∀ b, st.secrets_file = some b → (fs_create_run st k1).secrets_file = some b)
      ∧ aget (vault_create_project_space vst name adm s1).1.mounts ("kv-for-" ++ name)
          = some mdata
      ∧ (vault_create_project_space vst name adm s1).2.role_id
          = (vault_create_project_space
              (vault_create_project_space vst name adm s1).1 name adm s2).2.role_id
      ∧ (vault_create_project_space vst name adm s1).2.secret_id = s1
      ∧ (vault_create_project_space
          (vault_create_project_space vst name adm s1).1 name adm s2).2.secret_id = s2 := by
  refine ⟨fs_create_eq_run st k1, ?_, ?_, ?_, ?_, rfl, rfl, rfl⟩
  · rw [fs_create_eq_run (fs_create_run st k1) k2, fs_create_run_idem]
  · intro k0 h
    unfold fs_create_run
    rw [h]
    rfl
  · intro b h
    unfold fs_create_run
    rw [h]
    rfl
  · exact add_secrets_engine_preserves _ _ _ _
      (add_secrets_engine_preserves _ _ _ _ hm)

/-- C6 witness: the amended theorem at a provisioned filesystem state and a
Vault state with existing tenant mount data. -/
theorem C6_amended_witness :
    fs_create_project_space ⟨some 7, some (7, ⟨[("s", "v")], []⟩)⟩ 1
        = .ok (fs_create_run ⟨some 7, some (7, ⟨[("s", "v")], []⟩)⟩ 1)
      ∧ fs_create_project_space
          (fs_create_run ⟨some 7, some (7, ⟨[("s", "v")], []⟩)⟩ 1) 2
        = .ok (fs_create_run ⟨some 7, some (7, ⟨[("s", "v")], []⟩)⟩ 1)
      ∧ (fs_create_run ⟨some 7, some (7, ⟨[("s", "v")], []⟩)⟩ 1).key_file = some 7
      ∧ (fs_create_run ⟨some 7, some (7, ⟨[("s", "v")], []⟩)⟩ 1).secrets_file
          = some (7, ⟨[("s", "v")], []⟩)
      ∧ aget (vault_create_project_space ⟨[("kv-for-1", [("a", "b")])], [], []⟩
          "1" false "sid-1").1.mounts ("kv-for-" ++ "1") = some [("a", "b")]
      ∧ (vault_create_project_space ⟨[("kv-for-1", [("a", "b")])], [], []⟩
          "1" false "sid-1").2.secret_id = "sid-1" := by
  have h := C6_amended ⟨some 7, some (7, ⟨[("s", "v")], []⟩)⟩ 1 2
    ⟨[("kv-for-1", [("a", "b")])], [], []⟩ "1" false "sid-1" "sid-2" [("a", "b")]
    (by decide)
  exact ⟨h.1, h.2.1, h.2.2.1 7 rfl, h.2.2.2.1 (7, ⟨[("s", "v")], []⟩) rfl,
    h.2.2.2.2.1, h.2.2.2.2.2.2.1⟩

end Shared
